import Mathlib

/-!
Verification of the 2D mass-spring soft-body simulation
(main.cpp of the Mass Spring 2D demo together with the SoftBody header).

The physics state is embedded shallowly: glm 3-component float vectors
become `Vec3` over the reals, the raw `RigidBody**` grid becomes a total
function from row/column indices to bodies (only indices below the
subdivision counts are ever read or written by the step), and the mesh
vertex buffer becomes a function from vertex indices to positions.
`glm::normalize` of a zero vector is undefined (a NaN vector in the C++
code), so the per-neighbour force computation is Option-valued, `none`
modelling the undefined case; the step aborts at the first undefined
normalisation.
-/

namespace MassSpring

/-- Three-component real vector, modelling `glm::vec3`. -/
structure Vec3 where
  x : ℝ
  y : ℝ
  z : ℝ

noncomputable instance : DecidableEq Vec3 := fun _ _ => Classical.propDecidable _

instance : Zero Vec3 := ⟨⟨0, 0, 0⟩⟩

instance : Add Vec3 := ⟨fun a b => ⟨a.x + b.x, a.y + b.y, a.z + b.z⟩⟩

instance : Sub Vec3 := ⟨fun a b => ⟨a.x - b.x, a.y - b.y, a.z - b.z⟩⟩

instance : Neg Vec3 := ⟨fun a => ⟨-a.x, -a.y, -a.z⟩⟩

instance : SMul ℝ Vec3 := ⟨fun c a => ⟨c * a.x, c * a.y, c * a.z⟩⟩

@[simp] lemma zero_x : (0 : Vec3).x = 0 := rfl

@[simp] lemma zero_y : (0 : Vec3).y = 0 := rfl

@[simp] lemma zero_z : (0 : Vec3).z = 0 := rfl

@[simp] lemma add_x (a b : Vec3) : (a + b).x = a.x + b.x := rfl

@[simp] lemma add_y (a b : Vec3) : (a + b).y = a.y + b.y := rfl

@[simp] lemma add_z (a b : Vec3) : (a + b).z = a.z + b.z := rfl

@[simp] lemma sub_x (a b : Vec3) : (a - b).x = a.x - b.x := rfl

@[simp] lemma sub_y (a b : Vec3) : (a - b).y = a.y - b.y := rfl

@[simp] lemma sub_z (a b : Vec3) : (a - b).z = a.z - b.z := rfl

@[simp] lemma neg_x (a : Vec3) : (-a).x = -a.x := rfl

@[simp] lemma neg_y (a : Vec3) : (-a).y = -a.y := rfl

@[simp] lemma neg_z (a : Vec3) : (-a).z = -a.z := rfl

@[simp] lemma smul_x (c : ℝ) (a : Vec3) : (c • a).x = c * a.x := rfl

@[simp] lemma smul_y (c : ℝ) (a : Vec3) : (c • a).y = c * a.y := rfl

@[simp] lemma smul_z (c : ℝ) (a : Vec3) : (c • a).z = c * a.z := rfl

@[ext] lemma Vec3.ext {a b : Vec3} (hx : a.x = b.x) (hy : a.y = b.y) (hz : a.z = b.z) :
    a = b := by
  cases a; cases b; simp_all

lemma vec3_eq_iff (a b : Vec3) : a = b ↔ a.x = b.x ∧ a.y = b.y ∧ a.z = b.z := by
  constructor
  · rintro rfl; exact ⟨rfl, rfl, rfl⟩
  · rintro ⟨hx, hy, hz⟩; exact Vec3.ext hx hy hz

instance : AddCommGroup Vec3 :=
  { add := (· + ·), zero := 0, neg := Neg.neg, sub := (· - ·)
    add_assoc := fun a b c => by ext <;> simp <;> ring
    zero_add := fun a => by ext <;> simp
    add_zero := fun a => by ext <;> simp
    add_comm := fun a b => by ext <;> simp <;> ring
    neg_add_cancel := fun a => by ext <;> simp
    sub_eq_add_neg := fun a b => by ext <;> simp <;> ring
    nsmul := nsmulRec, zsmul := zsmulRec }

instance : Module ℝ Vec3 :=
  { smul := (· • ·)
    one_smul := fun a => by ext <;> simp
    mul_smul := fun c d a => by ext <;> simp <;> ring
    smul_zero := fun c => by ext <;> simp
    smul_add := fun c a b => by ext <;> simp <;> ring
    add_smul := fun c d a => by ext <;> simp <;> ring
    zero_smul := fun a => by ext <;> simp }

/-- One point mass of the lattice, modelling the `RigidBody` struct used by
`IntegrateLinear` and `update` in main.cpp. -/
structure RigidBody where
  position : Vec3
  velocity : Vec3
  acceleration : Vec3
  netForce : Vec3
  netImpulse : Vec3
  inverseMass : ℝ

/-- The configuration part of the `SoftBody` struct: grid dimensions, rest
lengths and spring constants.  The `bodies` array is modelled separately as a
`Grid` so that the step can be written as explicit state passing. -/
structure SoftBody where
  subdivisionsX : ℕ
  subdivisionsY : ℕ
  restHeight : ℝ
  restWidth : ℝ
  coefficient : ℝ
  dampening : ℝ

/-- The `bodies` 2D array of a SoftBody: row index (bounded by
`subdivisionsY`) then column index (bounded by `subdivisionsX`). -/
def Grid : Type := ℕ → ℕ → RigidBody

/-- The vertex buffer of the external lattice mesh, one position per vertex
index. -/
def Mesh : Type := ℕ → Vec3

/-- Euclidean length of a vector, modelling `glm::length`. -/
noncomputable def norm3 (v : Vec3) : ℝ := Real.sqrt (v.x ^ 2 + v.y ^ 2 + v.z ^ 2)

/-- Normalisation, modelling `glm::normalize`.  The C++ library divides by
the length, which for the zero vector produces NaN components; that
undefined case is modelled as `none`. -/
noncomputable def glmNormalize (v : Vec3) : Option Vec3 :=
  if v = (0 : Vec3) then none else some ((1 / norm3 v) • v)

/-- The Hooke spring term of one neighbour line of `update`:
`coefficient * (mag - restLength) * direction` for the displacement from
cell (i, j) to cell (ni, nj), undefined when the displacement cannot be
normalised. -/
noncomputable def springTerm (cfg : SoftBody) (g : Grid) (i j ni nj : ℕ) (rest : ℝ) :
    Option Vec3 :=
  (glmNormalize ((g ni nj).position - (g i j).position)).map fun direction =>
    (cfg.coefficient * (norm3 ((g ni nj).position - (g i j).position) - rest)) • direction

/-- One full neighbour contribution of `update`: the spring term minus the
damping term `velocity * dampening` of the local body. -/
noncomputable def springDamp (cfg : SoftBody) (g : Grid) (i j ni nj : ℕ) (rest : ℝ) :
    Option Vec3 :=
  (springTerm cfg g i j ni nj rest).map fun s => s - cfg.dampening • (g i j).velocity

/-- Adds an Option-valued contribution to an Option-valued accumulator,
modelling one `netForce +=` line. -/
noncomputable def addContrib (acc c : Option Vec3) : Option Vec3 :=
  acc.bind fun a => c.map fun v => a + v

/-- Guarded accumulation: the contribution is added only when the neighbour
exists, modelling the `if` around each `netForce +=` line. -/
noncomputable def contribIf (cond : Prop) [Decidable cond] (c acc : Option Vec3) :
    Option Vec3 :=
  if cond then addContrib acc c else acc

/-- The net force accumulated for cell (i, j) by the first loop of `update`:
the cell's incoming `netForce` plus the contributions of the up, down, left
and right neighbours (in the order of the source), plus `externalForce` for
cells of row 0. -/
noncomputable def cellNewForce (cfg : SoftBody) (ext : Vec3) (g : Grid) (i j : ℕ) :
    Option Vec3 :=
  (fun acc => if i = 0 then acc.map fun a => a + ext else acc)
    (contribIf (j < cfg.subdivisionsX - 1) (springDamp cfg g i j i (j + 1) cfg.restWidth)
      (contribIf (0 < j) (springDamp cfg g i j i (j - 1) cfg.restWidth)
        (contribIf (i < cfg.subdivisionsY - 1) (springDamp cfg g i j (i + 1) j cfg.restHeight)
          (contribIf (0 < i) (springDamp cfg g i j (i - 1) j cfg.restHeight)
            (some (g i j).netForce)))))

/-- Overwrites the body stored at cell (i, j). -/
def updateCell (g : Grid) (i j : ℕ) (b : RigidBody) : Grid :=
  fun a b' => if a = i ∧ b' = j then b else g a b'

/-- Replaces the `netForce` field of a body. -/
def setNetForce (b : RigidBody) (f : Vec3) : RigidBody := { b with netForce := f }

/-- The traversal order of both loops of `update`: row index `i` outermost
ascending, column index `j` innermost ascending. -/
def cells (rows cols : ℕ) : List (ℕ × ℕ) :=
  (List.range rows).flatMap fun i => (List.range cols).map fun j => (i, j)

/-- Second order Euler integration of one body, modelling `IntegrateLinear`
of main.cpp: acceleration from the net force, position advanced by
`v0*dt + 0.5*a*dt^2`, velocity advanced by `a*dt + inverseMass*netImpulse`,
and both accumulators reset to zero. -/
noncomputable def IntegrateLinear (dt : ℝ) (b : RigidBody) : RigidBody :=
  let acceleration := b.inverseMass • b.netForce
  let v0dT := dt • b.velocity
  let aT2 := ((1 : ℝ) / 2) • (dt ^ 2) • acceleration
  { position := b.position + (v0dT + aT2)
    velocity := b.velocity + (dt • acceleration + b.inverseMass • b.netImpulse)
    acceleration := acceleration
    netForce := 0
    netImpulse := 0
    inverseMass := b.inverseMass }

/-- The vertex index computed by the second loop of `update`:
`int numVertex = i * body->subdivisionsY + j;` (exactly as in the source,
which uses `subdivisionsY`, not the column count `subdivisionsX`). -/
def vertexIndex (cfg : SoftBody) (i j : ℕ) : ℕ := i * cfg.subdivisionsY + j

/-- One iteration of the second loop of `update`: integrate the body at the
cell and write its new position to the mesh vertex at `vertexIndex`. -/
noncomputable def phaseBStep (cfg : SoftBody) (dt : ℝ) (gm : Grid × Mesh) (ij : ℕ × ℕ) :
    Grid × Mesh :=
  let b := IntegrateLinear dt (gm.1 ij.1 ij.2)
  (updateCell gm.1 ij.1 ij.2 b, Function.update gm.2 (vertexIndex cfg ij.1 ij.2) b.position)

/-- The second loop of `update` (Phase B): every cell is integrated in
traversal order and its new position is written to the mesh vertex at
`vertexIndex`. -/
noncomputable def phaseB (cfg : SoftBody) (dt : ℝ) (gm : Grid × Mesh) : Grid × Mesh :=
  (cells cfg.subdivisionsY cfg.subdivisionsX).foldl (phaseBStep cfg dt) gm

/-- The first loop of `update` (Phase A): the cells are processed in
traversal order, each cell's `netForce` being overwritten with the value
accumulated from the current grid state. -/
noncomputable def phaseA (cfg : SoftBody) (ext : Vec3) (g : Grid) : Option Grid :=
  (cells cfg.subdivisionsY cfg.subdivisionsX).foldlM
    (fun g' ij => (cellNewForce cfg ext g' ij.1 ij.2).map fun f =>
      updateCell g' ij.1 ij.2 (setNetForce (g' ij.1 ij.2) f))
    g

/-- One physics step, modelling `update (float dt)` of main.cpp: Phase A
then Phase B. -/
noncomputable def update (cfg : SoftBody) (ext : Vec3) (dt : ℝ) (g : Grid) (m : Mesh) :
    Option (Grid × Mesh) :=
  (phaseA cfg ext g).map fun g' => phaseB cfg dt (g', m)

/-- Modelled from the spec (section 4.3 Phase A): the reference force pass,
in which every cell's net force is computed from the pre-step positions and
velocities of the whole grid, with no sequential threading of state between
cells.  Defined iff every cell's force computation is defined. -/
noncomputable def forcesSpec (cfg : SoftBody) (ext : Vec3) (g : Grid) : Option Grid :=
  if ∀ ij ∈ cells cfg.subdivisionsY cfg.subdivisionsX,
      (cellNewForce cfg ext g ij.1 ij.2).isSome = true then
    some fun i j =>
      if (i, j) ∈ cells cfg.subdivisionsY cfg.subdivisionsX then
        setNetForce (g i j) ((cellNewForce cfg ext g i j).getD 0)
      else g i j
  else none

/-- Modelled from the spec (section 4.3): the reference two-phase step,
which first accumulates every cell's force from the pre-step state and only
then integrates every cell and writes the mesh. -/
noncomputable def stepSpec (cfg : SoftBody) (ext : Vec3) (dt : ℝ) (g : Grid) (m : Mesh) :
    Option (Grid × Mesh) :=
  (forcesSpec cfg ext g).map fun g' => phaseB cfg dt (g', m)

/-- Modelled from the spec: the `RigidBody` constructor (the RigidBody
header itself is not among the sources; only its uses are).  Per the spec's
data model it stores the given position, velocity and acceleration, zero
`netForce` and `netImpulse` accumulators, and inverse mass 1.0 for every
mass of this system. -/
def mkRigidBody (pos vel acc : Vec3) (invMass : ℝ) : RigidBody :=
  { position := pos, velocity := vel, acceleration := acc,
    netForce := 0, netImpulse := 0, inverseMass := invMass }

/-- The parameter part of the `SoftBody` constructor of the SoftBody header:
rest lengths are the world extents divided by the subdivision counts. -/
noncomputable def softBodyCfg (width height : ℝ) (subX subY : ℕ) (coeff damp : ℝ) :
    SoftBody :=
  { subdivisionsX := subX, subdivisionsY := subY,
    restWidth := width / (subX : ℝ), restHeight := height / (subY : ℝ),
    coefficient := coeff, dampening := damp }

/-- The grid built by the `SoftBody` constructor: the body of cell (i, j)
sits at `(-width/2 + widthStep*j, -height/2 + heightStep*i, 0)` with zero
velocity.  (The C++ array only holds the in-range cells; the function is
total, and the step never reads an out-of-range cell.) -/
noncomputable def softBodyGrid (width height : ℝ) (subX subY : ℕ) : Grid :=
  fun i j =>
    mkRigidBody
      ⟨-width / 2 + (width / (subX : ℝ)) * (j : ℝ),
        -height / 2 + (height / (subY : ℝ)) * (i : ℝ), 0⟩
      0 0 1

/-- Number of existing axis neighbours of cell (i, j), one per conditional
branch of the force loop. -/
def neighborCount (cfg : SoftBody) (i j : ℕ) : ℕ :=
  (if 0 < i then 1 else 0) + (if i < cfg.subdivisionsY - 1 then 1 else 0) +
    (if 0 < j then 1 else 0) + (if j < cfg.subdivisionsX - 1 then 1 else 0)

/-- Iterated physics steps, one externalForce per step. -/
noncomputable def iterateSteps (cfg : SoftBody) (exts : ℕ → Vec3) (dt : ℝ) :
    ℕ → Grid × Mesh → Option (Grid × Mesh)
  | 0, gm => some gm
  | n + 1, gm => (update cfg (exts n) dt gm.1 gm.2).bind (iterateSteps cfg exts dt n)

/-- A body at the origin with unit velocity along x and zero accumulators. -/
def bodyA : RigidBody :=
  { position := ⟨0, 0, 0⟩, velocity := ⟨1, 0, 0⟩, acceleration := 0,
    netForce := 0, netImpulse := 0, inverseMass := 1 }

/-- A body at (1, 0, 0) at rest. -/
def bodyB : RigidBody :=
  { position := ⟨1, 0, 0⟩, velocity := 0, acceleration := 0,
    netForce := 0, netImpulse := 0, inverseMass := 1 }

/-- A body with everything zero and inverse mass 1. -/
def zeroBody : RigidBody :=
  { position := 0, velocity := 0, acceleration := 0,
    netForce := 0, netImpulse := 0, inverseMass := 1 }

/-- A 1x1 configuration (single isolated cell). -/
noncomputable def cfg1 : SoftBody :=
  { subdivisionsX := 1, subdivisionsY := 1, restHeight := 1, restWidth := 1,
    coefficient := 25, dampening := 1/2 }

/-- A 1-row, 2-column configuration with unit rest width. -/
noncomputable def cfgPair : SoftBody :=
  { subdivisionsX := 2, subdivisionsY := 1, restHeight := 1, restWidth := 1,
    coefficient := 25, dampening := 1/2 }

/-- A non-square configuration: 2 rows, 3 columns. -/
noncomputable def cfgWide : SoftBody :=
  { subdivisionsX := 3, subdivisionsY := 2, restHeight := 1, restWidth := 1,
    coefficient := 25, dampening := 1/2 }

/-- A grid that is `bodyA` everywhere (all cells coincident, moving). -/
def gConst : Grid := fun _ _ => bodyA

/-- A grid that is `zeroBody` everywhere. -/
def gZero : Grid := fun _ _ => zeroBody

/-- The two-cell row: `bodyA` at column 0, `bodyB` elsewhere; with `cfgPair`
the two bodies sit exactly one rest width apart. -/
def gPair : Grid := fun _ j => if j = 0 then bodyA else bodyB

/-- The all-zero mesh. -/
def m0 : Mesh := fun _ => 0

/-- The 2x2 unit-square scenario configuration of the end-to-end test:
SoftBody(1.0, 1.0, 2, 2, 25.0, 0.5). -/
noncomputable def cfg9 : SoftBody := softBodyCfg 1 1 2 2 25 (1/2)

/-- The grid built by the constructor for the 2x2 unit-square scenario. -/
noncomputable def g9 : Grid := softBodyGrid 1 1 2 2

/-- A planar state: every body's position, velocity and both accumulators
have zero z-component (exactly what the constructor establishes). -/
def ZFlat (g : Grid) : Prop :=
  ∀ i j, (g i j).position.z = 0 ∧ (g i j).velocity.z = 0 ∧
    (g i j).netForce.z = 0 ∧ (g i j).netImpulse.z = 0

/-- Membership in the traversal order is exactly being in range. -/
lemma mem_cells {rows cols : ℕ} {p : ℕ × ℕ} :
    p ∈ cells rows cols ↔ p.1 < rows ∧ p.2 < cols := by
  cases p with
  | mk a b =>
    simp only [cells, List.mem_flatMap, List.mem_map, List.mem_range, Prod.mk.injEq]
    constructor
    · rintro ⟨i, hi, j, hj, rfl, rfl⟩; exact ⟨hi, hj⟩
    · rintro ⟨ha, hb⟩; exact ⟨a, ha, b, hb, rfl, rfl⟩

/-- The traversal order visits every cell exactly once. -/
lemma cells_nodup (rows cols : ℕ) : (cells rows cols).Nodup := by
  unfold cells
  rw [List.nodup_flatMap]
  constructor
  · intro i _
    exact (List.nodup_range cols).map fun a b h => by simpa using h
  · refine List.Pairwise.imp ?_ (List.pairwise_lt_range rows)
    intro a b hab
    intro x hx hx'
    simp only [List.mem_map, List.mem_range] at hx hx'
    obtain ⟨j, _, rfl⟩ := hx
    obtain ⟨j', _, hj'⟩ := hx'
    exact absurd (congrArg Prod.fst hj').symm (Nat.ne_of_lt hab)

/-- The per-neighbour contribution reads only positions and the local
velocity. -/
lemma springDamp_congr {cfg : SoftBody} {g g' : Grid} {i j ni nj : ℕ} {rest : ℝ}
    (hp : ∀ a b, (g a b).position = (g' a b).position)
    (hv : (g i j).velocity = (g' i j).velocity) :
    springDamp cfg g i j ni nj rest = springDamp cfg g' i j ni nj rest := by
  simp only [springDamp, springTerm, hp, hv]

/-- The force accumulated for a cell reads only positions, velocities and
the cell's own incoming net force. -/
lemma cellNewForce_congr {cfg : SoftBody} {ext : Vec3} {g g' : Grid} {i j : ℕ}
    (hp : ∀ a b, (g a b).position = (g' a b).position)
    (hv : ∀ a b, (g a b).velocity = (g' a b).velocity)
    (hf : (g i j).netForce = (g' i j).netForce) :
    cellNewForce cfg ext g i j = cellNewForce cfg ext g' i j := by
  simp only [cellNewForce, hf, springDamp_congr hp (hv i j)]

/-- Loop invariant of Phase A: processing any duplicate-free list of cells
starting from a state that agrees with the pre-step grid on all positions
and velocities, and on the net force of every still-unprocessed cell,
produces exactly the parallel pointwise result computed from the pre-step
grid (and is defined iff every listed cell's force is defined). -/
lemma phaseA_loop (cfg : SoftBody) (ext : Vec3) (g₀ : Grid) (L : List (ℕ × ℕ)) :
    ∀ g₁ : Grid, L.Nodup →
    (∀ a b, (g₁ a b).position = (g₀ a b).position) →
    (∀ a b, (g₁ a b).velocity = (g₀ a b).velocity) →
    (∀ ij ∈ L, (g₁ ij.1 ij.2).netForce = (g₀ ij.1 ij.2).netForce) →
    (L.foldlM (fun g' ij => (cellNewForce cfg ext g' ij.1 ij.2).map fun f =>
        updateCell g' ij.1 ij.2 (setNetForce (g' ij.1 ij.2) f)) g₁ =
      if ∀ ij ∈ L, (cellNewForce cfg ext g₀ ij.1 ij.2).isSome = true then
        some fun i j =>
          if (i, j) ∈ L then setNetForce (g₁ i j) ((cellNewForce cfg ext g₀ i j).getD 0)
          else g₁ i j
      else none) := by
  induction L with
  | nil =>
    intro g₁ _ _ _ _
    have hfun : (fun i j => if (i, j) ∈ ([] : List (ℕ × ℕ)) then
        setNetForce (g₁ i j) ((cellNewForce cfg ext g₀ i j).getD 0) else g₁ i j) = g₁ := by
      funext i j; simp
    simp [List.foldlM_nil, hfun]
  | cons hd tl ih =>
    intro g₁ hnd hp hv hf
    obtain ⟨hhdtl, hndtl⟩ := List.nodup_cons.mp hnd
    rw [List.foldlM_cons]
    have hcell : cellNewForce cfg ext g₁ hd.1 hd.2 = cellNewForce cfg ext g₀ hd.1 hd.2 :=
      cellNewForce_congr hp hv (hf hd (List.mem_cons_self hd tl))
    cases hopt : cellNewForce cfg ext g₀ hd.1 hd.2 with
    | none =>
      have hcond : ¬ ∀ ij ∈ hd :: tl, (cellNewForce cfg ext g₀ ij.1 ij.2).isSome = true := by
        intro hall
        have := hall hd (List.mem_cons_self hd tl)
        rw [hopt] at this
        simp at this
      rw [if_neg hcond, hcell, hopt]
      simp
    | some fnew =>
      have hg₂ : (cellNewForce cfg ext g₁ hd.1 hd.2).map (fun f =>
          updateCell g₁ hd.1 hd.2 (setNetForce (g₁ hd.1 hd.2) f)) =
          some (updateCell g₁ hd.1 hd.2 (setNetForce (g₁ hd.1 hd.2) fnew)) := by
        rw [hcell, hopt, Option.map_some']
      rw [hg₂]
      set g₂ := updateCell g₁ hd.1 hd.2 (setNetForce (g₁ hd.1 hd.2) fnew) with hg₂def
      have hbind : (some g₂ >>= tl.foldlM (fun g' ij =>
          (cellNewForce cfg ext g' ij.1 ij.2).map fun f =>
            updateCell g' ij.1 ij.2 (setNetForce (g' ij.1 ij.2) f))) =
          tl.foldlM (fun g' ij => (cellNewForce cfg ext g' ij.1 ij.2).map fun f =>
            updateCell g' ij.1 ij.2 (setNetForce (g' ij.1 ij.2) f)) g₂ := rfl
      rw [hbind]
      have hp₂ : ∀ a b, (g₂ a b).position = (g₀ a b).position := by
        intro a b
        by_cases h : a = hd.1 ∧ b = hd.2
        · simp [hg₂def, updateCell, h, setNetForce, hp hd.1 hd.2]
        · simp [hg₂def, updateCell, h, hp a b]
      have hv₂ : ∀ a b, (g₂ a b).velocity = (g₀ a b).velocity := by
        intro a b
        by_cases h : a = hd.1 ∧ b = hd.2
        · simp [hg₂def, updateCell, h, setNetForce, hv hd.1 hd.2]
        · simp [hg₂def, updateCell, h, hv a b]
      have hf₂ : ∀ ij ∈ tl, (g₂ ij.1 ij.2).netForce = (g₀ ij.1 ij.2).netForce := by
        intro ij hij
        have hne : ¬(ij.1 = hd.1 ∧ ij.2 = hd.2) := by
          intro hcon
          have he : ij = hd := Prod.ext_iff.mpr ⟨hcon.1, hcon.2⟩
          exact hhdtl (he ▸ hij)
        simp [hg₂def, updateCell, hne, hf ij (List.mem_cons_of_mem _ hij)]
      rw [ih g₂ hndtl hp₂ hv₂ hf₂]
      have hhds : (cellNewForce cfg ext g₀ hd.1 hd.2).isSome = true := by simp [hopt]
      by_cases hall : ∀ ij ∈ tl, (cellNewForce cfg ext g₀ ij.1 ij.2).isSome = true
      · have hall' : ∀ ij ∈ hd :: tl, (cellNewForce cfg ext g₀ ij.1 ij.2).isSome = true := by
          rw [List.forall_mem_cons]; exact ⟨hhds, hall⟩
        rw [if_pos hall, if_pos hall']
        congr 1
        funext i j
        by_cases hmem : (i, j) ∈ tl
        · have hnehd : ¬(i = hd.1 ∧ j = hd.2) := by
            intro hcon
            have he : (i, j) = hd := Prod.ext_iff.mpr ⟨hcon.1, hcon.2⟩
            exact hhdtl (he ▸ hmem)
          have hmem' : (i, j) ∈ hd :: tl := List.mem_cons_of_mem _ hmem
          simp [hmem, hmem', hg₂def, updateCell, hnehd]
        · by_cases hishd : (i, j) = hd
          · have h1 : i = hd.1 := congrArg Prod.fst hishd
            have h2 : j = hd.2 := congrArg Prod.snd hishd
            subst h1; subst h2
            have hmem' : ((hd.1, hd.2) : ℕ × ℕ) ∈ hd :: tl := List.mem_cons_self hd tl
            simp [hmem, hmem', hg₂def, updateCell, hopt]
          · have hmem' : (i, j) ∉ hd :: tl := by
              intro hcon
              rcases List.mem_cons.mp hcon with h | h
              · exact hishd h
              · exact hmem h
            have hnehd : ¬(i = hd.1 ∧ j = hd.2) := by
              intro hcon
              have he : (i, j) = hd := Prod.ext_iff.mpr ⟨hcon.1, hcon.2⟩
              exact hishd he
            simp [hmem, hmem', hg₂def, updateCell, hnehd]
      · have hnall : ¬ ∀ ij ∈ hd :: tl, (cellNewForce cfg ext g₀ ij.1 ij.2).isSome = true := by
          intro hcon
          exact hall fun ij hij => hcon ij (List.mem_cons_of_mem _ hij)
        rw [if_neg hall, if_neg hnall]

/-- The sequential Phase A loop of the source equals the parallel reference
force pass of the spec: cell-by-cell in-place accumulation reads only
pre-step positions and velocities, so the traversal order is immaterial. -/
lemma phaseA_eq_forcesSpec (cfg : SoftBody) (ext : Vec3) (g : Grid) :
    phaseA cfg ext g = forcesSpec cfg ext g := by
  unfold phaseA forcesSpec
  exact phaseA_loop cfg ext g (cells cfg.subdivisionsY cfg.subdivisionsX) g
    (cells_nodup _ _) (fun _ _ => rfl) (fun _ _ => rfl) (fun _ _ => rfl)

/-- Loop invariant of Phase B (grid component): integrating a duplicate-free
list of cells rewrites exactly those cells with their integrated bodies,
each computed from its own pre-Phase-B body. -/
lemma phaseB_loop (cfg : SoftBody) (dt : ℝ) (g₀ : Grid) (L : List (ℕ × ℕ)) :
    ∀ (g₁ : Grid) (m₁ : Mesh), L.Nodup →
    (∀ ij ∈ L, g₁ ij.1 ij.2 = g₀ ij.1 ij.2) →
    (L.foldl (phaseBStep cfg dt) (g₁, m₁)).1 =
      fun i j => if (i, j) ∈ L then IntegrateLinear dt (g₀ i j) else g₁ i j := by
  induction L with
  | nil =>
    intro g₁ m₁ _ _
    funext i j
    simp [List.foldl_nil]
  | cons hd tl ih =>
    intro g₁ m₁ hnd hagree
    obtain ⟨hhdtl, hndtl⟩ := List.nodup_cons.mp hnd
    rw [List.foldl_cons]
    have hstep : phaseBStep cfg dt (g₁, m₁) hd =
        (updateCell g₁ hd.1 hd.2 (IntegrateLinear dt (g₁ hd.1 hd.2)),
          Function.update m₁ (vertexIndex cfg hd.1 hd.2)
            (IntegrateLinear dt (g₁ hd.1 hd.2)).position) := rfl
    rw [hstep]
    have hagree₂ : ∀ ij ∈ tl,
        updateCell g₁ hd.1 hd.2 (IntegrateLinear dt (g₁ hd.1 hd.2)) ij.1 ij.2 =
          g₀ ij.1 ij.2 := by
      intro ij hij
      have hne : ¬(ij.1 = hd.1 ∧ ij.2 = hd.2) := by
        intro hcon
        have he : ij = hd := Prod.ext_iff.mpr ⟨hcon.1, hcon.2⟩
        exact hhdtl (he ▸ hij)
      simp [updateCell, hne, hagree ij (List.mem_cons_of_mem _ hij)]
    rw [ih _ _ hndtl hagree₂]
    funext i j
    by_cases hmem : (i, j) ∈ tl
    · have hmem' : (i, j) ∈ hd :: tl := List.mem_cons_of_mem _ hmem
      simp [hmem, hmem']
    · by_cases hishd : (i, j) = hd
      · have h1 : i = hd.1 := congrArg Prod.fst hishd
        have h2 : j = hd.2 := congrArg Prod.snd hishd
        subst h1; subst h2
        have hmem' : ((hd.1, hd.2) : ℕ × ℕ) ∈ hd :: tl := List.mem_cons_self hd tl
        simp [hmem, hmem', updateCell, hagree hd (List.mem_cons_self hd tl)]
      · have hmem' : (i, j) ∉ hd :: tl := by
          intro hcon
          rcases List.mem_cons.mp hcon with h | h
          · exact hishd h
          · exact hmem h
        have hnehd : ¬(i = hd.1 ∧ j = hd.2) := by
          intro hcon
          have he : (i, j) = hd := Prod.ext_iff.mpr ⟨hcon.1, hcon.2⟩
          exact hishd he
        simp [hmem, hmem', updateCell, hnehd]

/-- The grid coming out of Phase B is the pointwise integration of every
in-range cell. -/
lemma phaseB_fst (cfg : SoftBody) (dt : ℝ) (g : Grid) (m : Mesh) :
    (phaseB cfg dt (g, m)).1 = fun i j =>
      if i < cfg.subdivisionsY ∧ j < cfg.subdivisionsX then IntegrateLinear dt (g i j)
      else g i j := by
  unfold phaseB
  rw [phaseB_loop cfg dt g _ g m (cells_nodup _ _) (fun _ _ => rfl)]
  funext i j
  by_cases h : i < cfg.subdivisionsY ∧ j < cfg.subdivisionsX
  · have hm : (i, j) ∈ cells cfg.subdivisionsY cfg.subdivisionsX := mem_cells.mpr h
    simp [hm, h]
  · have hm : (i, j) ∉ cells cfg.subdivisionsY cfg.subdivisionsX := fun hc =>
      h (mem_cells.mp hc)
    simp [hm, h]

/-- Claim C1: the simulation step is two-phase.  For every grid
configuration, timestep and external force, the state produced by the step
equals the state produced by the reference composition that first
accumulates spring, damping and external forces for every cell from the
pre-step positions and velocities and only then integrates every cell: the
sequential in-place loop of the source modifies nothing that a later force
computation reads, so no body is integrated before all forces are known. -/
theorem C1_two_phase_step (cfg : SoftBody) (ext : Vec3) (dt : ℝ) (g : Grid) (m : Mesh) :
    update cfg ext dt g m = stepSpec cfg ext dt g m := by
  unfold update stepSpec
  rw [phaseA_eq_forcesSpec]

/-- Claim C2: one `IntegrateLinear` step with zero net impulse realises
exact second-order kinematics: with acceleration a = inverseMass * netForce,
the new velocity is v + a*dt and the new position is x + v*dt + 0.5*a*dt^2,
the position update reading the pre-step velocity. -/
theorem C2_integrate_linear (dt : ℝ) (b : RigidBody) (hdt : 0 < dt)
    (himp : b.netImpulse = 0) :
    (IntegrateLinear dt b).velocity =
        b.velocity + dt • (b.inverseMass • b.netForce) ∧
      (IntegrateLinear dt b).position =
        b.position + dt • b.velocity +
          (((1 : ℝ) / 2) * dt ^ 2) • (b.inverseMass • b.netForce) := by
  constructor
  · ext <;> simp [IntegrateLinear, himp]
  · ext <;> simp [IntegrateLinear] <;> ring

/-- Witness for C2: the theorem applied at dt = 1 to a concrete body. -/
theorem C2_integrate_linear_witness :
    (IntegrateLinear 1 zeroBody).velocity =
        zeroBody.velocity + (1 : ℝ) • (zeroBody.inverseMass • zeroBody.netForce) ∧
      (IntegrateLinear 1 zeroBody).position =
        zeroBody.position + (1 : ℝ) • zeroBody.velocity +
          (((1 : ℝ) / 2) * (1 : ℝ) ^ 2) • (zeroBody.inverseMass • zeroBody.netForce) :=
  C2_integrate_linear 1 zeroBody (by norm_num) rfl

/-- Claim C3 fails on the code: the second loop computes the vertex index as
`i * subdivisionsY + j`, not the row-major `i * subdivisionsX + j`.  On a
2-row, 3-column grid, cell (1, 0) is written to vertex 2 instead of vertex
3, colliding with cell (0, 2); the correspondence is not one-to-one for
non-square grids. -/
theorem C3_vertex_index_bug :
    vertexIndex cfgWide 1 0 = vertexIndex cfgWide 0 2 ∧
      vertexIndex cfgWide 1 0 ≠ 1 * cfgWide.subdivisionsX + 0 := by
  constructor <;> simp [vertexIndex, cfgWide]

/-- Normalising a nonzero vector divides it by its length. -/
lemma glmNormalize_of_ne {v : Vec3} (h : v ≠ 0) :
    glmNormalize v = some ((1 / norm3 v) • v) := by
  rw [glmNormalize, if_neg h]

/-- Normalisation is undefined exactly at the zero vector. -/
lemma glmNormalize_eq_none_iff (v : Vec3) : glmNormalize v = none ↔ v = 0 := by
  unfold glmNormalize
  split_ifs with h
  · simp [h]
  · simp [h]

/-- When the spring term of a neighbour is zero, the neighbour's whole
contribution is exactly the damping term. -/
lemma springDamp_of_springTerm_zero {cfg : SoftBody} {g : Grid} {i j ni nj : ℕ}
    {rest : ℝ} (h : springTerm cfg g i j ni nj rest = some 0) :
    springDamp cfg g i j ni nj rest = some (-(cfg.dampening • (g i j).velocity)) := by
  rw [springDamp, h, Option.map_some']
  simp

/-- Accumulating a guarded contribution known to be `some w` when the guard
holds. -/
lemma contribIf_some_of {cond : Prop} [Decidable cond] {c : Option Vec3} {w : Vec3}
    (h : cond → c = some w) (acc : Vec3) :
    contribIf cond c (some acc) = some (acc + if cond then w else 0) := by
  unfold contribIf addContrib
  split_ifs with hc
  · rw [h hc]
    simp
  · simp

/-- Claim C4 as stated fails on the code: an isolated cell (no existing
neighbours) with nonzero velocity accumulates zero net force, not
`-dampening` times its velocity, because the damping term is only added
together with a neighbour's spring term. -/
theorem C4_counterexample :
    bodyA.velocity ≠ 0 ∧
      cellNewForce cfg1 0 gConst 0 0 = some 0 ∧
      (0 : Vec3) ≠ -cfg1.dampening • bodyA.velocity := by
  refine ⟨?_, ?_, ?_⟩
  · intro h
    have hx := congrArg Vec3.x h
    norm_num [bodyA] at hx
  · simp [cellNewForce, contribIf, cfg1, gConst, bodyA]
  · intro h
    have hx := congrArg Vec3.x h
    norm_num [bodyA, cfg1] at hx

/-- When every existing neighbour's spring term is zero, the accumulated
force is the compounded damping term: once per existing neighbour. -/
lemma cellNewForce_of_springTerms_zero (cfg : SoftBody) (g : Grid) (i j : ℕ)
    (hnf : (g i j).netForce = 0)
    (hup : 0 < i → springTerm cfg g i j (i - 1) j cfg.restHeight = some 0)
    (hdown : i < cfg.subdivisionsY - 1 →
      springTerm cfg g i j (i + 1) j cfg.restHeight = some 0)
    (hleft : 0 < j → springTerm cfg g i j i (j - 1) cfg.restWidth = some 0)
    (hright : j < cfg.subdivisionsX - 1 →
      springTerm cfg g i j i (j + 1) cfg.restWidth = some 0) :
    cellNewForce cfg 0 g i j =
      some (-((neighborCount cfg i j : ℝ) * cfg.dampening) • (g i j).velocity) := by
  have hmap : ∀ o : Option Vec3,
      (if i = 0 then o.map fun a => a + (0 : Vec3) else o) = o := by
    intro o
    split_ifs
    · cases o <;> simp
    · rfl
  simp only [cellNewForce]
  rw [contribIf_some_of (fun h => springDamp_of_springTerm_zero (hup h)),
    contribIf_some_of (fun h => springDamp_of_springTerm_zero (hdown h)),
    contribIf_some_of (fun h => springDamp_of_springTerm_zero (hleft h)),
    contribIf_some_of (fun h => springDamp_of_springTerm_zero (hright h)),
    hmap, hnf]
  refine congrArg some ?_
  by_cases h1 : 0 < i <;> by_cases h2 : i < cfg.subdivisionsY - 1 <;>
    by_cases h3 : 0 < j <;> by_cases h4 : j < cfg.subdivisionsX - 1 <;>
    simp only [neighborCount, h1, h2, h3, h4, if_true, if_false] <;>
    push_cast <;> ext <;> simp <;> ring

/-- Claim C4 amended: whenever every existing neighbour's spring term is
zero, the net force accumulated for a cell with nonzero velocity in one
step with zero externalForce and zero incoming netForce equals the velocity
scaled by minus the damping constant times the number of existing
neighbours (the damping term is compounded once per neighbour; an isolated
cell accumulates nothing). -/
theorem C4_damping_per_neighbor (cfg : SoftBody) (g : Grid) (i j : ℕ)
    (hnf : (g i j).netForce = 0)
    (hv : (g i j).velocity ≠ 0)
    (hup : 0 < i → springTerm cfg g i j (i - 1) j cfg.restHeight = some 0)
    (hdown : i < cfg.subdivisionsY - 1 →
      springTerm cfg g i j (i + 1) j cfg.restHeight = some 0)
    (hleft : 0 < j → springTerm cfg g i j i (j - 1) cfg.restWidth = some 0)
    (hright : j < cfg.subdivisionsX - 1 →
      springTerm cfg g i j i (j + 1) cfg.restWidth = some 0) :
    cellNewForce cfg 0 g i j =
      some (-((neighborCount cfg i j : ℝ) * cfg.dampening) • (g i j).velocity) :=
  cellNewForce_of_springTerms_zero cfg g i j hnf hup hdown hleft hright

/-- Witness for the amended C4: the left cell of a two-cell row whose only
neighbour sits exactly one rest width away. -/
theorem C4_damping_per_neighbor_witness :
    cellNewForce cfgPair 0 gPair 0 0 =
      some (-((neighborCount cfgPair 0 0 : ℝ) * cfgPair.dampening) •
        (gPair 0 0).velocity) := by
  refine C4_damping_per_neighbor cfgPair gPair 0 0 rfl ?_ ?_ ?_ ?_ ?_
  · intro h
    have hx := congrArg Vec3.x h
    norm_num [gPair, bodyA] at hx
  · intro h
    exact absurd h (by decide)
  · intro h
    exact absurd h (by decide)
  · intro h
    exact absurd h (by decide)
  · intro h
    have hdisp : (gPair 0 (0 + 1)).position - (gPair 0 0).position =
        (⟨1, 0, 0⟩ : Vec3) := by
      ext <;> simp [gPair, bodyA, bodyB]
    have hne : (⟨1, 0, 0⟩ : Vec3) ≠ 0 := by
      intro hc
      have hx := congrArg Vec3.x hc
      norm_num at hx
    have hnorm : norm3 (⟨1, 0, 0⟩ : Vec3) = 1 := by
      norm_num [norm3]
    rw [springTerm, hdisp, glmNormalize_of_ne hne, Option.map_some']
    refine congrArg some ?_
    rw [hnorm]
    have hcoef : cfgPair.coefficient * ((1 : ℝ) - cfgPair.restWidth) = 0 := by
      norm_num [cfgPair]
    rw [hcoef, zero_smul]

/-- Claim C5 as stated fails on the code: when the displacement between a
cell and an existing neighbour is the zero vector, the per-neighbour
computation does not produce a zero-direction, zero-spring-force
contribution; `glm::normalize` of the zero vector is undefined (modelled
`none`), there is no epsilon policy in the source, and the cell's whole
force accumulation is undefined. -/
theorem C5_counterexample :
    springDamp cfgPair gConst 0 0 0 1 cfgPair.restWidth = none ∧
      cellNewForce cfgPair 0 gConst 0 0 = none := by
  have h1 : springDamp cfgPair gConst 0 0 0 1 cfgPair.restWidth = none := by
    rw [springDamp, Option.map_eq_none', springTerm, Option.map_eq_none',
      glmNormalize_eq_none_iff]
    simp [gConst]
  refine ⟨h1, ?_⟩
  have hY : cfgPair.subdivisionsY = 1 := rfl
  have hX : cfgPair.subdivisionsX = 2 := rfl
  simp only [cellNewForce, contribIf, hY, hX]
  norm_num [addContrib, h1]

/-- Claim C5 amended: the per-neighbour contribution is undefined exactly
when the displacement between the two cells is the zero vector; a defined
(in particular a zero-spring) contribution exists only for a nonzero
displacement. -/
theorem C5_degenerate_undefined (cfg : SoftBody) (g : Grid) (i j ni nj : ℕ)
    (rest : ℝ) :
    springDamp cfg g i j ni nj rest = none ↔
      (g ni nj).position - (g i j).position = 0 := by
  rw [springDamp, Option.map_eq_none', springTerm, Option.map_eq_none',
    glmNormalize_eq_none_iff]

/-- Claim C6: after every (defined) step, the `netForce` and `netImpulse`
accumulators of every in-range cell are the zero vector; `IntegrateLinear`
resets both, so nothing persists into the next step. -/
theorem C6_accumulators_reset (cfg : SoftBody) (ext : Vec3) (dt : ℝ) (g : Grid)
    (m : Mesh) (p : Grid × Mesh) (h : update cfg ext dt g m = some p) :
    ∀ i j, i < cfg.subdivisionsY → j < cfg.subdivisionsX →
      (p.1 i j).netForce = 0 ∧ (p.1 i j).netImpulse = 0 := by
  intro i j hi hj
  obtain ⟨gA, hA, hp⟩ : ∃ gA, phaseA cfg ext g = some gA ∧ p = phaseB cfg dt (gA, m) := by
    unfold update at h
    cases hx : phaseA cfg ext g with
    | none => rw [hx] at h; simp at h
    | some y =>
      rw [hx, Option.map_some'] at h
      exact ⟨y, rfl, (Option.some.injEq _ _).mp h |>.symm⟩
  subst hp
  rw [phaseB_fst]
  have hij : i < cfg.subdivisionsY ∧ j < cfg.subdivisionsX := ⟨hi, hj⟩
  simp only [hij, if_true]
  constructor <;> rfl

/-- The single-cell step from the all-zero state is defined. -/
lemma upd1_isSome : (update cfg1 0 1 gZero m0).isSome = true := by
  unfold update
  rw [phaseA_eq_forcesSpec]
  unfold forcesSpec
  have hall : ∀ ij ∈ cells cfg1.subdivisionsY cfg1.subdivisionsX,
      (cellNewForce cfg1 0 gZero ij.1 ij.2).isSome = true := by
    intro ij hij
    obtain ⟨h1, h2⟩ := mem_cells.mp hij
    have hY : cfg1.subdivisionsY = 1 := rfl
    have hX : cfg1.subdivisionsX = 1 := rfl
    have e1 : ij.1 = 0 := by omega
    have e2 : ij.2 = 0 := by omega
    rw [e1, e2]
    simp [cellNewForce, contribIf, hY, hX]
  rw [if_pos hall]
  simp

/-- Witness for C6: the accumulators of the only cell of a 1x1 grid after
one concrete step. -/
theorem C6_accumulators_reset_witness :
    (((update cfg1 0 1 gZero m0).get upd1_isSome).1 0 0).netForce = 0 ∧
      (((update cfg1 0 1 gZero m0).get upd1_isSome).1 0 0).netImpulse = 0 :=
  C6_accumulators_reset cfg1 0 1 gZero m0
    ((update cfg1 0 1 gZero m0).get upd1_isSome)
    (Option.some_get upd1_isSome).symm 0 0 (by decide) (by decide)

/-- For a cell of a positive row the accumulated force does not mention the
external force at all. -/
lemma cellNewForce_ext_irrel {cfg : SoftBody} {g : Grid} {i j : ℕ} (hi : 0 < i)
    (ext₁ ext₂ : Vec3) :
    cellNewForce cfg ext₁ g i j = cellNewForce cfg ext₂ g i j := by
  have hne : ¬(i = 0) := Nat.pos_iff_ne_zero.mp hi
  simp only [cellNewForce, if_neg hne]

/-- Definedness of a cell's force computation never depends on the external
force. -/
lemma cellNewForce_isSome_ext {cfg : SoftBody} {g : Grid} {i j : ℕ}
    (ext₁ ext₂ : Vec3) :
    (cellNewForce cfg ext₁ g i j).isSome = (cellNewForce cfg ext₂ g i j).isSome := by
  by_cases hi : i = 0
  · subst hi
    simp only [cellNewForce, eq_self_iff_true, if_true, Option.isSome_map']
  · simp only [cellNewForce, if_neg hi]

/-- Claim C7: in every step the external force is added exactly once to the
net force of every row-0 cell, and every cell of a positive row — its
accumulated force, its post-step body, and the definedness of the step —
is unaffected by the external force. -/
theorem C7_external_force_row0 (cfg : SoftBody) (ext₁ ext₂ : Vec3) (dt : ℝ)
    (g : Grid) (m : Mesh) (i j : ℕ) :
    (i = 0 → cellNewForce cfg ext₁ g i j =
      (cellNewForce cfg 0 g i j).map fun a => a + ext₁) ∧
    (0 < i → (phaseA cfg ext₁ g).map (fun gr => gr i j) =
      (phaseA cfg ext₂ g).map fun gr => gr i j) ∧
    (0 < i → (update cfg ext₁ dt g m).map (fun p => p.1 i j) =
      (update cfg ext₂ dt g m).map fun p => p.1 i j) := by
  have hb : 0 < i → (phaseA cfg ext₁ g).map (fun gr => gr i j) =
      (phaseA cfg ext₂ g).map fun gr => gr i j := by
    intro hi
    rw [phaseA_eq_forcesSpec, phaseA_eq_forcesSpec]
    unfold forcesSpec
    have hcond : (∀ ij ∈ cells cfg.subdivisionsY cfg.subdivisionsX,
        (cellNewForce cfg ext₁ g ij.1 ij.2).isSome = true) ↔
        ∀ ij ∈ cells cfg.subdivisionsY cfg.subdivisionsX,
          (cellNewForce cfg ext₂ g ij.1 ij.2).isSome = true := by
      constructor <;> intro hall ij hij
      · rw [← cellNewForce_isSome_ext ext₁ ext₂]; exact hall ij hij
      · rw [cellNewForce_isSome_ext ext₁ ext₂]; exact hall ij hij
    by_cases hall : ∀ ij ∈ cells cfg.subdivisionsY cfg.subdivisionsX,
        (cellNewForce cfg ext₁ g ij.1 ij.2).isSome = true
    · rw [if_pos hall, if_pos (hcond.mp hall)]
      simp only [Option.map_some']
      refine congrArg some ?_
      by_cases hm : (i, j) ∈ cells cfg.subdivisionsY cfg.subdivisionsX
      · simp only [hm, if_true, cellNewForce_ext_irrel hi ext₁ ext₂]
      · simp only [hm, if_false]
    · rw [if_neg hall, if_neg fun hc => hall (hcond.mpr hc)]
  refine ⟨?_, hb, ?_⟩
  · intro hi
    subst hi
    simp only [cellNewForce, eq_self_iff_true, if_true, Option.map_map]
    congr 1
    funext a
    simp
  · intro hi
    unfold update
    cases hA1 : phaseA cfg ext₁ g with
    | none =>
      have h2 : phaseA cfg ext₂ g = none := by
        have hmap := hb hi
        rw [hA1] at hmap
        simp only [Option.map_none'] at hmap
        exact Option.map_eq_none'.mp hmap.symm
      rw [h2]
    | some gA1 =>
      obtain ⟨gA2, hA2⟩ : ∃ g2, phaseA cfg ext₂ g = some g2 := by
        have hmap := hb hi
        rw [hA1] at hmap
        cases hx : phaseA cfg ext₂ g with
        | none => rw [hx] at hmap; simp at hmap
        | some y => exact ⟨y, rfl⟩
      have hpt : gA1 i j = gA2 i j := by
        have hmap := hb hi
        rw [hA1, hA2] at hmap
        simpa using hmap
      rw [hA2]
      simp only [Option.map_some']
      refine congrArg some ?_
      rw [phaseB_fst, phaseB_fst]
      simp only [hpt]

/-- Witness for C7: a cell of row 1 is unaffected by a concrete external
force. -/
theorem C7_external_force_row0_witness :
    (phaseA cfg1 ⟨1, 0, 0⟩ gZero).map (fun gr => gr 1 0) =
      (phaseA cfg1 0 gZero).map fun gr => gr 1 0 :=
  (C7_external_force_row0 cfg1 ⟨1, 0, 0⟩ 0 1 gZero m0 1 0).2.1 (by decide)

/-- The length of a vector is invariant under negation. -/
lemma norm3_neg (v : Vec3) : norm3 (-v) = norm3 v := by
  unfold norm3
  congr 1
  simp only [neg_x, neg_y, neg_z]
  ring

/-- The spring term is antisymmetric in the two cells: equal magnitude,
opposite direction. -/
lemma springTerm_antisymm (cfg : SoftBody) (g : Grid) (i j ni nj : ℕ) (rest : ℝ)
    (h : (g ni nj).position ≠ (g i j).position) :
    springTerm cfg g i j ni nj rest =
      (springTerm cfg g ni nj i j rest).map fun v => -v := by
  have hd : (g ni nj).position - (g i j).position ≠ 0 := sub_ne_zero_of_ne h
  have hd' : (g i j).position - (g ni nj).position ≠ 0 :=
    sub_ne_zero_of_ne (Ne.symm h)
  rw [springTerm, springTerm, glmNormalize_of_ne hd, glmNormalize_of_ne hd',
    Option.map_some', Option.map_some']
  refine congrArg some ?_
  have hneg : (g i j).position - (g ni nj).position =
      -((g ni nj).position - (g i j).position) := (neg_sub _ _).symm
  rw [hneg, norm3_neg]
  ext <;> simp <;> ring

/-- Claim C8: for a pair of axis-adjacent cells with distinct positions,
the spring contribution (damping excluded) each adds to the other's net
force is the exact negation of the opposite one — same rest length, same
magnitude, opposite direction. -/
theorem C8_spring_symmetry (cfg : SoftBody) (g : Grid) (i j : ℕ) :
    ((g (i + 1) j).position ≠ (g i j).position →
      springTerm cfg g i j (i + 1) j cfg.restHeight =
        (springTerm cfg g (i + 1) j i j cfg.restHeight).map fun v => -v) ∧
    ((g i (j + 1)).position ≠ (g i j).position →
      springTerm cfg g i j i (j + 1) cfg.restWidth =
        (springTerm cfg g i (j + 1) i j cfg.restWidth).map fun v => -v) :=
  ⟨springTerm_antisymm cfg g i j (i + 1) j cfg.restHeight,
    springTerm_antisymm cfg g i j i (j + 1) cfg.restWidth⟩

/-- Witness for C8: the two cells of the concrete two-cell row. -/
theorem C8_spring_symmetry_witness :
    springTerm cfgPair gPair 0 0 0 (0 + 1) cfgPair.restWidth =
      (springTerm cfgPair gPair 0 (0 + 1) 0 0 cfgPair.restWidth).map fun v => -v :=
  (C8_spring_symmetry cfgPair gPair 0 0).2 (by
    intro hc
    have hx := congrArg Vec3.x hc
    norm_num [gPair, bodyA, bodyB] at hx)

/-- A defined neighbour contribution of a planar state is planar. -/
lemma springDamp_z {cfg : SoftBody} {g : Grid} {i j ni nj : ℕ} {rest : ℝ}
    (hpz : ∀ a b, (g a b).position.z = 0) (hvz : (g i j).velocity.z = 0) :
    ∀ v, springDamp cfg g i j ni nj rest = some v → v.z = 0 := by
  intro v hv
  rw [springDamp] at hv
  rcases Option.map_eq_some'.mp hv with ⟨s, hs, rfl⟩
  rw [springTerm] at hs
  rcases Option.map_eq_some'.mp hs with ⟨d, hd, rfl⟩
  have hne : (g ni nj).position - (g i j).position ≠ 0 := by
    intro hc
    rw [glmNormalize, if_pos hc] at hd
    exact Option.noConfusion hd
  rw [glmNormalize_of_ne hne] at hd
  have hd' : (1 / norm3 ((g ni nj).position - (g i j).position)) •
      ((g ni nj).position - (g i j).position) = d :=
    (Option.some.injEq _ _).mp hd
  have hdz : d.z = 0 := by
    rw [← hd']
    simp [hpz]
  simp [hdz, hvz]

/-- A defined accumulated cell force over a planar state with planar
external force is planar. -/
lemma cellNewForce_z {cfg : SoftBody} {ext : Vec3} {g : Grid} {i j : ℕ}
    (hpz : ∀ a b, (g a b).position.z = 0) (hvz : (g i j).velocity.z = 0)
    (hfz : (g i j).netForce.z = 0) (hez : ext.z = 0) :
    ∀ v, cellNewForce cfg ext g i j = some v → v.z = 0 := by
  have chain : ∀ (cond : Prop) [Decidable cond] (c acc : Option Vec3),
      (∀ w, c = some w → w.z = 0) → (∀ a, acc = some a → a.z = 0) →
      ∀ a, contribIf cond c acc = some a → a.z = 0 := by
    intro cond _ c acc hc hacc a ha
    rw [contribIf] at ha
    split_ifs at ha
    · rw [addContrib] at ha
      rcases acc with _ | a0
      · simp at ha
      · rcases c with _ | w0
        · simp at ha
        · simp only [Option.some_bind', Option.map_some', Option.some.injEq] at ha
          rw [← ha]
          simp [hacc a0 rfl, hc w0 rfl]
    · exact hacc a ha
  intro v hv
  simp only [cellNewForce] at hv
  have hmain : ∀ w, contribIf (j < cfg.subdivisionsX - 1)
      (springDamp cfg g i j i (j + 1) cfg.restWidth)
      (contribIf (0 < j) (springDamp cfg g i j i (j - 1) cfg.restWidth)
        (contribIf (i < cfg.subdivisionsY - 1)
          (springDamp cfg g i j (i + 1) j cfg.restHeight)
          (contribIf (0 < i) (springDamp cfg g i j (i - 1) j cfg.restHeight)
            (some (g i j).netForce)))) = some w → w.z = 0 := by
    intro w hw
    refine chain _ _ _ (fun u hu => springDamp_z hpz hvz u hu) ?_ w hw
    intro w2 hw2
    refine chain _ _ _ (fun u hu => springDamp_z hpz hvz u hu) ?_ w2 hw2
    intro w3 hw3
    refine chain _ _ _ (fun u hu => springDamp_z hpz hvz u hu) ?_ w3 hw3
    intro w4 hw4
    refine chain _ _ _ (fun u hu => springDamp_z hpz hvz u hu) ?_ w4 hw4
    intro w5 hw5
    have hw5' : (g i j).netForce = w5 := (Option.some.injEq _ _).mp hw5
    rw [← hw5']
    exact hfz
  split_ifs at hv with hi
  · rcases Option.map_eq_some'.mp hv with ⟨a, ha, rfl⟩
    simp [hmain a ha, hez]
  · exact hmain v hv

/-- Integration keeps a planar body planar. -/
lemma IntegrateLinear_z {dt : ℝ} {b : RigidBody}
    (hp : b.position.z = 0) (hv : b.velocity.z = 0) (hf : b.netForce.z = 0)
    (hi : b.netImpulse.z = 0) :
    (IntegrateLinear dt b).position.z = 0 ∧ (IntegrateLinear dt b).velocity.z = 0 ∧
      (IntegrateLinear dt b).netForce.z = 0 ∧
      (IntegrateLinear dt b).netImpulse.z = 0 := by
  refine ⟨?_, ?_, rfl, rfl⟩ <;> simp [IntegrateLinear, hp, hv, hf, hi]

/-- A successful step factors into its two phases. -/
lemma update_eq_some {cfg : SoftBody} {ext : Vec3} {dt : ℝ} {g : Grid} {m : Mesh}
    {p : Grid × Mesh} (h : update cfg ext dt g m = some p) :
    ∃ gA, phaseA cfg ext g = some gA ∧ p = phaseB cfg dt (gA, m) := by
  unfold update at h
  cases hx : phaseA cfg ext g with
  | none => rw [hx] at h; simp at h
  | some y =>
    rw [hx, Option.map_some'] at h
    exact ⟨y, rfl, ((Option.some.injEq _ _).mp h).symm⟩

/-- Phase A keeps a planar state planar (given planar external force). -/
lemma phaseA_preserves_ZFlat {cfg : SoftBody} {ext : Vec3} {g gA : Grid}
    (hz : ZFlat g) (hez : ext.z = 0) (hA : phaseA cfg ext g = some gA) :
    ZFlat gA := by
  rw [phaseA_eq_forcesSpec] at hA
  unfold forcesSpec at hA
  split_ifs at hA with hall
  have hga := (Option.some.injEq _ _).mp hA
  intro i j
  rw [← hga]
  by_cases hm : (i, j) ∈ cells cfg.subdivisionsY cfg.subdivisionsX
  · simp only [hm, if_true]
    refine ⟨(hz i j).1, (hz i j).2.1, ?_, (hz i j).2.2.2⟩
    have hsome := hall (i, j) hm
    rcases Option.isSome_iff_exists.mp hsome with ⟨v, hv⟩
    simp only [setNetForce, hv, Option.getD_some]
    exact cellNewForce_z (fun a b => (hz a b).1) (hz i j).2.1 (hz i j).2.2.1 hez v hv
  · simp only [hm, if_false]
    exact hz i j

/-- One whole step keeps a planar state planar. -/
lemma update_preserves_ZFlat {cfg : SoftBody} {ext : Vec3} {dt : ℝ} {g : Grid}
    {m : Mesh} {p : Grid × Mesh} (hz : ZFlat g) (hez : ext.z = 0)
    (h : update cfg ext dt g m = some p) : ZFlat p.1 := by
  obtain ⟨gA, hA, hp⟩ := update_eq_some h
  have hzA := phaseA_preserves_ZFlat hz hez hA
  subst hp
  intro i j
  rw [phaseB_fst]
  by_cases hij : i < cfg.subdivisionsY ∧ j < cfg.subdivisionsX
  · simp only [hij, if_true]
    obtain ⟨h1, h2, h3, h4⟩ := hzA i j
    exact IntegrateLinear_z h1 h2 h3 h4
  · simp only [hij, if_false]
    exact hzA i j

/-- Claim C10: the simulation stays in the z = 0 plane.  From any planar
state (as the constructor builds: all positions, velocities and
accumulators with zero z) and planar external forces, any number of
defined steps — definedness encodes the proviso that no two interacting
neighbours are coincident — yields bodies whose positions and velocities
still have zero z-component. -/
theorem C10_planar_invariant (cfg : SoftBody) (exts : ℕ → Vec3) (dt : ℝ) (n : ℕ) :
    ∀ (g : Grid) (m : Mesh) (p : Grid × Mesh),
    (∀ k, (exts k).z = 0) → ZFlat g →
    iterateSteps cfg exts dt n (g, m) = some p →
    ∀ i j, (p.1 i j).position.z = 0 ∧ (p.1 i j).velocity.z = 0 := by
  induction n with
  | zero =>
    intro g m p _ hz h
    have hgm : (g, m) = p := (Option.some.injEq _ _).mp h
    rw [← hgm]
    intro i j
    exact ⟨(hz i j).1, (hz i j).2.1⟩
  | succ n ih =>
    intro g m p hez hz h
    simp only [iterateSteps] at h
    rcases hq : update cfg (exts n) dt g m with _ | q
    · rw [hq] at h; simp at h
    · rw [hq, Option.some_bind'] at h
      have hzq : ZFlat q.1 := update_preserves_ZFlat hz (hez n) hq
      exact ih q.1 q.2 p hez hzq h

/-- Witness for C10: one defined step of the 1x1 zero grid. -/
theorem C10_planar_invariant_witness :
    (((update cfg1 0 1 gZero m0).get upd1_isSome).1 0 0).position.z = 0 ∧
      (((update cfg1 0 1 gZero m0).get upd1_isSome).1 0 0).velocity.z = 0 :=
  C10_planar_invariant cfg1 (fun _ => 0) 1 1 gZero m0
    ((update cfg1 0 1 gZero m0).get upd1_isSome)
    (fun _ => rfl)
    (fun _ _ => ⟨rfl, rfl, rfl, rfl⟩)
    (by
      simp only [iterateSteps]
      rw [Option.bind_some]
      exact (Option.some_get upd1_isSome).symm)
    0 0

/-- A neighbour exactly at rest distance contributes no spring term. -/
lemma springTerm_of_norm_eq {cfg : SoftBody} {g : Grid} {i j ni nj : ℕ} {rest : ℝ}
    (hne : (g ni nj).position - (g i j).position ≠ 0)
    (hnorm : norm3 ((g ni nj).position - (g i j).position) = rest) :
    springTerm cfg g i j ni nj rest = some 0 := by
  rw [springTerm, glmNormalize_of_ne hne, Option.map_some']
  refine congrArg some ?_
  rw [hnorm, sub_self, mul_zero, zero_smul]

/-- Length of a vector whose squared length is a quarter. -/
lemma norm3_axis_half (v : Vec3) (h : v.x ^ 2 + v.y ^ 2 + v.z ^ 2 = (1 / 2 : ℝ) ^ 2) :
    norm3 v = 1 / 2 := by
  rw [norm3, h, Real.sqrt_sq]
  norm_num

/-- A vector with nonzero x-component is nonzero. -/
lemma vec_ne_zero_of_x {v : Vec3} (h : v.x ≠ 0) : v ≠ 0 := fun hc => h (by rw [hc]; rfl)

/-- A vector with nonzero y-component is nonzero. -/
lemma vec_ne_zero_of_y {v : Vec3} (h : v.y ≠ 0) : v ≠ 0 := fun hc => h (by rw [hc]; rfl)

/-- The constructed 2x2 grid's positions. -/
lemma g9_pos (i j : ℕ) :
    (g9 i j).position =
      ⟨-(1 / 2) + (1 / 2) * (j : ℝ), -(1 / 2) + (1 / 2) * (i : ℝ), 0⟩ := by
  ext <;> norm_num [g9, softBodyGrid, mkRigidBody]

/-- Displacements inside the constructed 2x2 grid. -/
lemma g9_disp (i j ni nj : ℕ) :
    (g9 ni nj).position - (g9 i j).position =
      ⟨(1 / 2) * ((nj : ℝ) - (j : ℝ)), (1 / 2) * ((ni : ℝ) - (i : ℝ)), 0⟩ := by
  rw [g9_pos, g9_pos]
  ext <;> simp <;> push_cast <;> ring

/-- Every cell of the 2x2 unit-square scenario accumulates zero force: all
existing neighbours sit exactly one rest length away and all velocities are
zero. -/
lemma g9_cell_force : ∀ i j, i < 2 → j < 2 → cellNewForce cfg9 0 g9 i j = some 0 := by
  have hrw : cfg9.restWidth = 1 / 2 := by norm_num [cfg9, softBodyCfg]
  have hrh : cfg9.restHeight = 1 / 2 := by norm_num [cfg9, softBodyCfg]
  have hvel : ∀ a b, (g9 a b).velocity = 0 := fun a b => rfl
  have hnf : ∀ a b, (g9 a b).netForce = 0 := fun a b => rfl
  have hvert : ∀ (i j ni : ℕ), ((ni : ℝ) - (i : ℝ)) ^ 2 = 1 →
      springTerm cfg9 g9 i j ni j cfg9.restHeight = some 0 := by
    intro i j ni hsq
    rw [hrh]
    refine springTerm_of_norm_eq ?_ ?_
    · rw [g9_disp]
      refine vec_ne_zero_of_y ?_
      show (1 / 2 : ℝ) * ((ni : ℝ) - (i : ℝ)) ≠ 0
      intro hc
      rcases mul_eq_zero.mp hc with hc' | hc'
      · norm_num at hc'
      · rw [hc'] at hsq; norm_num at hsq
    · rw [g9_disp]
      refine norm3_axis_half _ ?_
      show ((1 / 2 : ℝ) * ((j : ℝ) - (j : ℝ))) ^ 2 +
        ((1 / 2 : ℝ) * ((ni : ℝ) - (i : ℝ))) ^ 2 + (0 : ℝ) ^ 2 = (1 / 2) ^ 2
      rw [mul_pow, mul_pow, hsq]
      ring
  have hhorz : ∀ (i j nj : ℕ), ((nj : ℝ) - (j : ℝ)) ^ 2 = 1 →
      springTerm cfg9 g9 i j i nj cfg9.restWidth = some 0 := by
    intro i j nj hsq
    rw [hrw]
    refine springTerm_of_norm_eq ?_ ?_
    · rw [g9_disp]
      refine vec_ne_zero_of_x ?_
      show (1 / 2 : ℝ) * ((nj : ℝ) - (j : ℝ)) ≠ 0
      intro hc
      rcases mul_eq_zero.mp hc with hc' | hc'
      · norm_num at hc'
      · rw [hc'] at hsq; norm_num at hsq
    · rw [g9_disp]
      refine norm3_axis_half _ ?_
      show ((1 / 2 : ℝ) * ((nj : ℝ) - (j : ℝ))) ^ 2 +
        ((1 / 2 : ℝ) * ((i : ℝ) - (i : ℝ))) ^ 2 + (0 : ℝ) ^ 2 = (1 / 2) ^ 2
      rw [mul_pow, mul_pow, hsq]
      ring
  intro i j hi hj
  have hstep := cellNewForce_of_springTerms_zero cfg9 g9 i j (hnf i j)
    (fun h1 => hvert i j (i - 1) (by
      have : i = 1 := by omega
      subst this
      norm_num))
    (fun h2 => hvert i j (i + 1) (by
      have hY : cfg9.subdivisionsY = 2 := rfl
      rw [hY] at h2
      have : i = 0 := by omega
      subst this
      norm_num))
    (fun h3 => hhorz i j (j - 1) (by
      have : j = 1 := by omega
      subst this
      norm_num))
    (fun h4 => hhorz i j (j + 1) (by
      have hX : cfg9.subdivisionsX = 2 := rfl
      rw [hX] at h4
      have : j = 0 := by omega
      subst this
      norm_num))
  rw [hstep, hvel i j, smul_zero]

/-- Claim C9: the 2x2 unit-square scenario.  A SoftBody built with
width = height = 1, 2x2 subdivisions, coefficient 25 and damping 0.5,
stepped once from its construction state with dt = 0.012 and zero
externalForce, accumulates zero net force on every cell and leaves every
cell's position and velocity unchanged. -/
theorem C9_rest_equilibrium :
    (cellNewForce cfg9 0 g9 0 0 = some 0 ∧ cellNewForce cfg9 0 g9 0 1 = some 0 ∧
      cellNewForce cfg9 0 g9 1 0 = some 0 ∧ cellNewForce cfg9 0 g9 1 1 = some 0) ∧
    ∀ i j, (update cfg9 0 (12 / 1000) g9 m0).map
        (fun p => ((p.1 i j).position, (p.1 i j).velocity)) =
      some ((g9 i j).position, (g9 i j).velocity) := by
  constructor
  · exact ⟨g9_cell_force 0 0 (by norm_num) (by norm_num),
      g9_cell_force 0 1 (by norm_num) (by norm_num),
      g9_cell_force 1 0 (by norm_num) (by norm_num),
      g9_cell_force 1 1 (by norm_num) (by norm_num)⟩
  · have hY : cfg9.subdivisionsY = 2 := rfl
    have hX : cfg9.subdivisionsX = 2 := rfl
    have hforces : ∀ ij ∈ cells cfg9.subdivisionsY cfg9.subdivisionsX,
        (cellNewForce cfg9 0 g9 ij.1 ij.2).isSome = true := by
      intro ij hij
      obtain ⟨h1, h2⟩ := mem_cells.mp hij
      rw [hY] at h1
      rw [hX] at h2
      rw [g9_cell_force ij.1 ij.2 h1 h2]
      rfl
    intro i j
    unfold update
    rw [phaseA_eq_forcesSpec]
    unfold forcesSpec
    rw [if_pos hforces, Option.map_some', Option.map_some']
    refine congrArg some ?_
    rw [phaseB_fst]
    by_cases hm : (i, j) ∈ cells cfg9.subdivisionsY cfg9.subdivisionsX
    · obtain ⟨h1, h2⟩ := mem_cells.mp hm
      have hrange : i < cfg9.subdivisionsY ∧ j < cfg9.subdivisionsX := ⟨h1, h2⟩
      simp only [hm, if_true, hrange]
      rw [g9_cell_force i j (hY ▸ h1) (hX ▸ h2)]
      have hvel : (g9 i j).velocity = 0 := rfl
      have himp : (g9 i j).netImpulse = 0 := rfl
      rw [Prod.mk.injEq]
      constructor
      · simp [IntegrateLinear, setNetForce, hvel]
      · simp [IntegrateLinear, setNetForce, hvel, himp]
    · have hrange : ¬(i < cfg9.subdivisionsY ∧ j < cfg9.subdivisionsX) := fun hc =>
        hm (mem_cells.mpr hc)
      simp only [hm, if_false, hrange]

end MassSpring
